import Mathlib

/-!
Shallow embedding of the core matching and geometry engine of the
keep-calm-and-fill-the-form repository (`src/app/api/detect/route.ts`:
the detect route and the fill route), together with theorems settling
the specification claims.

Numbers appearing in the routes are JavaScript numbers; they are
modelled here as exact rationals (`ℚ`).  String operations
(`toLowerCase`, the regex `[^a-z0-9]`) are modelled on the ASCII
fragment the matching keys use.
-/

namespace FillForm

/-- ASCII model of the JavaScript `String.prototype.toLowerCase` applied to
one character: an uppercase ASCII letter is shifted to its lowercase form,
every other character is unchanged. -/
def toLowerChar (c : Char) : Char :=
  if 65 ≤ c.toNat ∧ c.toNat ≤ 90 then Char.ofNat (c.toNat + 32) else c

/-- JavaScript `value.toLowerCase()` (ASCII fragment), characterwise. -/
def toLowerStr (s : String) : String :=
  ⟨s.data.map toLowerChar⟩

/-- The character class `[a-z0-9]` of the normalizer's regex. -/
def isLowerAlnum (c : Char) : Bool :=
  decide ((97 ≤ c.toNat ∧ c.toNat ≤ 122) ∨ (48 ≤ c.toNat ∧ c.toNat ≤ 57))

/-- Source `normalize` (both routes, lines 25 and 258):
`value.toLowerCase().replace(/[^a-z0-9]/g, "")` — lower-case, then drop every
character outside `[a-z0-9]`. -/
def normalize (value : String) : String :=
  ⟨(value.data.map toLowerChar).filter isLowerAlnum⟩

/-- Whether `l` starts with the character sequence `pat`. -/
def startsWithChars : List Char → List Char → Bool
  | [], _ => true
  | _ :: _, [] => false
  | a :: as, b :: bs => a == b && startsWithChars as bs

/-- JavaScript `String.prototype.includes`: `pat` occurs contiguously in `l`. -/
def includesChars (pat : List Char) : List Char → Bool
  | [] => startsWithChars pat []
  | l@(_ :: rest) => startsWithChars pat l || includesChars pat rest

/-- Field types of the detection payload (`FieldType` in `lib/types`). -/
inductive FieldType
  | text | email | number | date | checkbox | radio | select
  deriving DecidableEq, Repr

/-- Widget kinds a structured PDF field can be classified as
(`PdfFieldKind` in the fill route). -/
inductive PdfFieldKind
  | text | checkbox | radio | dropdown | optionlist | unknown
  deriving DecidableEq, Repr

/-- Source `resolveFieldName` of the detect route (lines 27-48): four tiers,
first success wins; the containment tier accepts the first containing
candidate. -/
def resolveFieldNameDetect (requested : String) (available : List String) :
    Option String :=
  let normalizedRequested := normalize requested
  match available.find? (fun name => name == requested) with
  | some exact => some exact
  | none =>
    match available.find? (fun name => toLowerStr name == toLowerStr requested) with
    | some caseInsensitive => some caseInsensitive
    | none =>
      match available.find? (fun name => normalize name == normalizedRequested) with
      | some normalizedMatch => some normalizedMatch
      | none =>
        available.find? (fun name =>
          includesChars normalizedRequested.data (normalize name).data)

/-- Source `resolveFieldName` of the fill route (lines 297-329).  The kind map
is modelled as the total function `name ↦ kindMap.get(name) ?? "unknown"`.
The containment tier accepts a unique candidate, tie-breaks several
candidates by the first whose kind is preferred, and otherwise yields no
match. -/
def resolveFieldName (requested : String) (available : List String)
    (kindMap : String → PdfFieldKind) (preferredKinds : List PdfFieldKind) :
    Option String :=
  let normalizedRequested := normalize requested
  match available.find? (fun name => name == requested) with
  | some exact => some exact
  | none =>
    match available.find? (fun name => toLowerStr name == toLowerStr requested) with
    | some caseInsensitive => some caseInsensitive
    | none =>
      match available.find? (fun name => normalize name == normalizedRequested) with
      | some normalizedMatch => some normalizedMatch
      | none =>
        let contains := available.filter (fun name =>
          includesChars normalizedRequested.data (normalize name).data)
        if contains.length = 1 then contains[0]?
        else if 1 < contains.length ∧ ¬ preferredKinds.isEmpty then
          match contains.find? (fun name => preferredKinds.contains (kindMap name)) with
          | some kindMatch => some kindMatch
          | none => none
        else none

/-- A JSON value as produced by the runtime JSON parser. -/
inductive Json
  | null
  | bool (b : Bool)
  | num (q : ℚ)
  | str (s : String)
  | arr (elems : List Json)
  | obj (entries : List (String × Json))

/-- JavaScript property access `j[key]` yielding `undefined` (`none`) unless
`j` is an object carrying the key. -/
def jsGet (j : Json) (key : String) : Option Json :=
  match j with
  | .obj entries => (entries.find? (fun e => e.1 == key)).map (·.2)
  | _ => none

/-- JavaScript truthiness of a JSON value. -/
def jsTruthy : Json → Bool
  | .null => false
  | .bool b => b
  | .num q => q != 0
  | .str s => s != ""
  | .arr _ => true
  | .obj _ => true

mutual

/-- JavaScript `String(v)` on a JSON value (numbers via the rational
`toString`, arrays joined with commas, objects as `[object Object]`). -/
def jsToString : Json → String
  | .null => "null"
  | .bool b => if b then "true" else "false"
  | .num q => toString q
  | .str s => s
  | .arr elems => String.intercalate "," (jsToStringList elems)
  | .obj _ => "[object Object]"

/-- Elementwise stringification of a JSON array. -/
def jsToStringList : List Json → List String
  | [] => []
  | j :: rest => jsToString j :: jsToStringList rest

end

/-- Nullish coalescing `v ?? dflt` where `none` is `undefined`. -/
def jsCoalesce (v : Option Json) (dflt : Json) : Json :=
  match v with
  | none => dflt
  | some .null => dflt
  | some j => j

/-- Numeric property of a JSON value: `some q` exactly when
`typeof j[key] === "number"`. -/
def jsGetNum (j : Json) (key : String) : Option ℚ :=
  match jsGet j key with
  | some (.num q) => some q
  | _ => none

/-- Leading JavaScript whitespace removal (ASCII fragment), used by the
trim model below and by the code-fence extraction. -/
def dropLeadWs : List Char → List Char
  | [] => []
  | c :: rest =>
    if c == ' ' || c == '\t' || c == '\n' || c == '\r' then dropLeadWs rest
    else c :: rest

/-- JavaScript `String.prototype.trim` (ASCII whitespace fragment): drop
leading and trailing whitespace. -/
def jsTrim (s : String) : String :=
  ⟨(dropLeadWs (dropLeadWs s.data).reverse).reverse⟩

/-- Bounding box of a detected field (`FieldBBox` in `lib/types`). -/
structure FieldBBox where
  page : ℚ
  x : ℚ
  y : ℚ
  width : Option ℚ
  height : Option ℚ
  deriving DecidableEq, Repr

/-- A sanitized field proposal (`DetectedField` in `lib/types`). -/
structure DetectedField where
  name : String
  label : String
  type : FieldType
  options : Option (List String)
  placeholder : Option String
  bbox : Option FieldBBox
  deriving DecidableEq, Repr

/-- The allow-list check plus coercion for the `type` key: values in the
fixed list map to themselves, everything else defaults to `text`. -/
def fieldTypeOfString (s : String) : FieldType :=
  if s = "text" then .text
  else if s = "email" then .email
  else if s = "number" then .number
  else if s = "date" then .date
  else if s = "checkbox" then .checkbox
  else if s = "radio" then .radio
  else if s = "select" then .select
  else .text

/-- Coercion of one raw field entry (the `.map` body of `parseResponse`,
lines 103-135).  Property access on `null` throws in the runtime, which the
surrounding `try` turns into the catch result; that is modelled by
`Except.error`. -/
def shapeItem (item : Json) : Except Unit DetectedField :=
  match item with
  | .null => .error ()
  | _ =>
    let name := jsTrim (jsToString (jsCoalesce (jsGet item "name") (.str "")))
    let label :=
      jsTrim (jsToString (jsCoalesce (jsGet item "label")
        (jsCoalesce (jsGet item "name") (.str ""))))
    let type :=
      fieldTypeOfString
        (toLowerStr (jsToString (jsCoalesce (jsGet item "type") (.str ""))))
    let placeholder :=
      match jsGet item "placeholder" with
      | some v => if jsTruthy v then some (jsToString v) else none
      | none => none
    let options :=
      match jsGet item "options" with
      | some (.arr elems) => some (elems.map jsToString)
      | _ => none
    let bbox :=
      match jsGet item "bbox" with
      | some b =>
        match jsGetNum b "page", jsGetNum b "x", jsGetNum b "y" with
        | some page, some x, some y =>
          some ⟨page, x, y, jsGetNum b "width", jsGetNum b "height"⟩
        | _, _, _ => none
      | none => none
    .ok ⟨name, label, type, options, placeholder, bbox⟩

/-- The `fieldsRaw.map(...)` over the whole raw array, short-circuiting at the
first entry whose coercion throws. -/
def shapeItems : List Json → Except Unit (List DetectedField)
  | [] => .ok []
  | item :: rest => do
    let f ← shapeItem item
    let fs ← shapeItems rest
    pure (f :: fs)

/-- The backtick character (code point 96). -/
def backtickChar : Char := Char.ofNat 96

/-- Case-insensitive (ASCII) sequence match at the head of a list. -/
def startsWithCharsCI : List Char → List Char → Bool
  | [], _ => true
  | _ :: _, [] => false
  | a :: as, b :: bs => toLowerChar a == toLowerChar b && startsWithCharsCI as bs

/-- The opening delimiter of the fence regex: three backticks followed by
`json`. -/
def fenceJsonChars : List Char :=
  [backtickChar, backtickChar, backtickChar, 'j', 's', 'o', 'n']

/-- Lazy capture `([\s\S]*?)` of the fence regex, up to the closing triple
backtick; `none` when no closing fence follows. -/
def takeUntilClose : List Char → Option (List Char)
  | [] => none
  | c :: rest =>
    if startsWithChars [backtickChar, backtickChar, backtickChar] (c :: rest) then
      some []
    else (takeUntilClose rest).map (fun l => c :: l)

/-- Scan for the earliest occurrence of the opening delimiter
(case-insensitively, matching the regex `/i` flag); returns the remainder
after it. -/
def findFenceStart : List Char → Option (List Char)
  | [] => none
  | c :: rest =>
    if startsWithCharsCI fenceJsonChars (c :: rest) then some ((c :: rest).drop 7)
    else findFenceStart rest

/-- The code-fence extraction of `parseResponse` (line 88):
`raw.match(/\x60\x60\x60json\s*([\s\S]*?)\x60\x60\x60/i)?.[1] ?? raw` —
the fenced inner content when the payload carries a fenced block, the raw
text otherwise. -/
def extractFencedJson (raw : String) : String :=
  match findFenceStart raw.data with
  | none => raw
  | some after =>
    match takeUntilClose (dropLeadWs after) with
    | none => raw
    | some inner => ⟨inner⟩

/-- Result of the detection response validator. -/
structure ParsedDetection where
  fields : List DetectedField
  title : Option String
  deriving DecidableEq, Repr

/-- Source `parseResponse` (lines 87-148), with the runtime JSON parser
abstracted as `jsonParse : String → Option Json` (`none` for a parse
failure).  A bare array is treated as the `fields` array; every throw inside
the `try` block (parse failure, or coercion of a `null` entry) lands in the
catch branch, which returns an empty field list and an absent title. -/
def parseResponse (jsonParse : String → Option Json) (raw : String) :
    ParsedDetection :=
  let jsonBlock := extractFencedJson raw
  match jsonParse jsonBlock with
  | none => ⟨[], none⟩
  | some parsed =>
    let payload :=
      match parsed with
      | .arr elems => Json.obj [("fields", .arr elems)]
      | _ => parsed
    let fieldsRaw :=
      match jsGet payload "fields" with
      | some (.arr elems) => elems
      | _ => []
    match shapeItems fieldsRaw with
    | .error _ => ⟨[], none⟩
    | .ok shaped =>
      let fields := shaped.filter (fun f => f.name != "" && f.label != "")
      let title :=
        match jsGet payload "title" with
        | some (.str t) => if (jsTrim t).length > 0 then some (jsTrim t) else none
        | _ => none
      ⟨fields, title⟩

/-- JavaScript `Math.round`: half-up rounding, `round(x) = ⌊x + 1/2⌋`. -/
def roundJs (q : ℚ) : Int :=
  ⌊q + 1 / 2⌋

/-- Page selection of `drawValueAtBBox` (lines 397-401): round the incoming
page number, decrement it when it is out of range above as a zero-based index
(treating it as one-based), then clamp into `[0, pageCount - 1]`. -/
def overlayPageIndex (page : ℚ) (pageCount : Nat) : Int :=
  let start := roundJs page
  let adjusted :=
    if (pageCount : Int) ≤ start ∧ 0 < start then start - 1 else start
  max 0 (min ((pageCount : Int) - 1) adjusted)

/-- Modelled from the spec (§4.5 step 1): treat the page as zero-based; if it
is out of range as a zero-based index but the decremented value is in range,
reinterpret it as one-based; clamp the final index into `[0, pageCount-1]`. -/
def specPageIndex (page : ℚ) (pageCount : Nat) : Int :=
  let start := roundJs page
  let adjusted :=
    if (start < 0 ∨ (pageCount : Int) ≤ start) ∧
        (0 ≤ start - 1 ∧ start - 1 < (pageCount : Int)) then start - 1
    else start
  max 0 (min ((pageCount : Int) - 1) adjusted)

/-- Unit inference of `drawValueAtBBox` (lines 407-408): a box is normalized
iff `x <= 1 && y <= 1 && (width ?? 0) <= 1 && (height ?? 0) <= 1`. -/
def isNormalizedBBox (b : FieldBBox) : Bool :=
  decide (b.x ≤ 1 ∧ b.y ≤ 1 ∧ b.width.getD 0 ≤ 1 ∧ b.height.getD 0 ≤ 1)

/-- The rectangle and caption placement computed by `drawValueAtBBox`. -/
structure OverlayGeom where
  width : ℚ
  height : ℚ
  x : ℚ
  yFromTop : ℚ
  padding : ℚ
  y : ℚ
  fontSize : ℚ
  deriving DecidableEq, Repr

/-- Geometry computation of `drawValueAtBBox` (lines 405-430): size defaults,
per-branch scaling and clamping, vertical flip with padding, font sizing. -/
def overlayGeom (b : FieldBBox) (pageWidth pageHeight : ℚ) : OverlayGeom :=
  let isNorm := isNormalizedBBox b
  let rawWidth := b.width.getD (if isNorm then 2 / 5 else pageWidth * (2 / 5))
  let rawHeight := b.height.getD (if isNorm then 1 / 25 else 24)
  let width := if isNorm then rawWidth * pageWidth else rawWidth
  let height := if isNorm then rawHeight * pageHeight else rawHeight
  let x :=
    if isNorm then max 0 (min 1 b.x) * pageWidth
    else max 0 (min (pageWidth - width) b.x)
  let yFromTop :=
    if isNorm then max 0 (min 1 b.y) * pageHeight
    else max 0 (min pageHeight b.y)
  let padding := min 6 (height * (1 / 4))
  let y := min (pageHeight - padding) (max padding (pageHeight - yFromTop - height + padding))
  let fontSize := min 16 (max 9 (height * (3 / 5)))
  ⟨width, height, x, yFromTop, padding, y, fontSize⟩

/-- A value supplied for one field: JavaScript `string | boolean`. -/
inductive JsValue
  | str (s : String)
  | bool (b : Bool)
  deriving DecidableEq, Repr

/-- One entry of `fieldsToFill` in the fill route: a full proposal from
`payload.fields`, or a name-only record built from a values key (then `type`
and `bbox` are absent). -/
structure FillField where
  name : String
  type : Option FieldType
  bbox : Option FieldBBox
  deriving DecidableEq, Repr

/-- What the fill loop does with one proposal. -/
inductive FillOutcome
  | filled (target : String)
  | overlay
  | warnedNoMatch
  | skippedNoValue
  | skippedNoName
  deriving DecidableEq, Repr

/-- Preferred kinds derived from a proposal's declared type
(lines 485-488). -/
def desiredKindsOf (t : Option FieldType) : List PdfFieldKind :=
  (if t = some .checkbox then [.checkbox] else []) ++
  (if t = some .radio then [.radio] else []) ++
  (if t = some .select then [.dropdown, .optionlist] else [])

/-- One iteration of the fill loop (lines 483-519) over the used-names set:
skip nameless proposals, resolve against the not-yet-used candidates, skip
when no value was supplied, fall back to the first unused field of a desired
kind, and otherwise overlay (with a box) or warn (without); a found target is
added to the used set and filled. -/
def fillStep (avail : List String) (kinds : String → PdfFieldKind)
    (values : String → Option JsValue) (used : List String) (field : FillField) :
    List String × FillOutcome :=
  if field.name = "" then (used, .skippedNoName)
  else
    let desiredKinds := desiredKindsOf field.type
    let candidates := avail.filter (fun n => !(used.contains n))
    let resolvedName := resolveFieldName field.name candidates kinds desiredKinds
    match values field.name with
    | none => (used, .skippedNoValue)
    | some _ =>
      let targetName :=
        match resolvedName with
        | some t => some t
        | none =>
          if ¬ desiredKinds.isEmpty then
            avail.find? (fun n =>
              !(used.contains n) && desiredKinds.contains (kinds n))
          else none
      match targetName with
      | none => (used, if field.bbox.isSome then .overlay else .warnedNoMatch)
      | some t => (t :: used, .filled t)

/-- The whole fill loop: thread the used-names set through the proposals in
input order, collecting each proposal's outcome. -/
def runFill (avail : List String) (kinds : String → PdfFieldKind)
    (values : String → Option JsValue) :
    List String → List FillField → List String × List FillOutcome
  | used, [] => (used, [])
  | used, field :: rest =>
    let step := fillStep avail kinds values used field
    let next := runFill avail kinds values step.1 rest
    (next.1, step.2 :: next.2)

/-- The structured-field names actually filled, in order. -/
def filledTargets (outcomes : List FillOutcome) : List String :=
  outcomes.filterMap (fun o =>
    match o with
    | .filled t => some t
    | _ => none)

/-- Lookup in the `ValueMap` record (`payload.values[name]`). -/
def lookupVal (values : List (String × JsValue)) (name : String) :
    Option JsValue :=
  (values.find? (fun kv => kv.1 == name)).map (·.2)

/-- Outcome of one fill request. -/
inductive FillRouteResult
  | rejected
  | completed (outcomes : List FillOutcome)
  deriving DecidableEq, Repr

/-- The fill route past payload validation (lines 462-520): reject when the
document's structured-field inventory is non-empty; otherwise derive
`fieldsToFill` (the supplied proposals when non-empty, else one name-only
entry per values key) and run the fill loop against the inventory. -/
def fillRoute (inventory : List String) (kinds : String → PdfFieldKind)
    (values : List (String × JsValue)) (fields : Option (List FillField)) :
    FillRouteResult :=
  if inventory.length > 0 then .rejected
  else
    let fieldsToFill :=
      match fields with
      | some fs =>
        if fs.length > 0 then fs
        else values.map (fun kv => FillField.mk kv.1 none none)
      | none => values.map (fun kv => FillField.mk kv.1 none none)
    .completed (runFill inventory kinds (lookupVal values) [] fieldsToFill).2

/-- Enrichment of one detected field in the detect route (lines 203-225):
resolve the proposal name against the PDF field names; on a match, override
the declared type from the probed kind and adopt the probed options when they
are longer.  The probing calls on the document library are abstracted as the
oracles `kindOf` and `optsOf`. -/
def enrichField (pdfFieldNames : List String) (kindOf : String → PdfFieldKind)
    (optsOf : String → Option (List String)) (f : DetectedField) :
    DetectedField :=
  match resolveFieldNameDetect f.name pdfFieldNames with
  | none => f
  | some resolved =>
    let newType :=
      match kindOf resolved with
      | .radio => FieldType.radio
      | .checkbox => FieldType.checkbox
      | .dropdown => FieldType.select
      | .optionlist => FieldType.select
      | _ => f.type
    let options :=
      match kindOf resolved with
      | .dropdown => optsOf resolved
      | .optionlist => optsOf resolved
      | .radio => optsOf resolved
      | _ => none
    let f2 := { f with type := newType }
    match options with
    | some os =>
      if os.length > 0 ∧
          (f2.options = none ∨ os.length > (f2.options.getD []).length) then
        { f2 with options := some os }
      else f2
    | none => f2

/-- Outcome of one detect request. -/
inductive DetectRouteResult
  | rejected
  | completed (fields : List DetectedField) (title : Option String)
  deriving DecidableEq, Repr

/-- The detect route around the recognizer call (lines 166-241): reject when
the document's structured-field inventory is non-empty; otherwise enrich the
validated proposals against the inventory and answer them with the parsed
title. -/
def detectRoute (inventory : List String) (kindOf : String → PdfFieldKind)
    (optsOf : String → Option (List String)) (parsed : ParsedDetection) :
    DetectRouteResult :=
  if inventory.length > 0 then .rejected
  else
    .completed (parsed.fields.map (enrichField inventory kindOf optsOf))
      parsed.title

/-! ### Helper lemmas -/

/-- A character kept by the normalizer's filter is already lowercase
alphanumeric, so lower-casing fixes it. -/
lemma toLowerChar_of_isLowerAlnum (c : Char) (h : isLowerAlnum c = true) :
    toLowerChar c = c := by
  simp only [isLowerAlnum, decide_eq_true_eq] at h
  unfold toLowerChar
  rw [if_neg (by omega)]

/-- Lower-casing then filtering a list of already-kept characters is the
identity. -/
lemma filter_map_toLower_of_kept (l : List Char)
    (h : ∀ c ∈ l, isLowerAlnum c = true) :
    (l.map toLowerChar).filter isLowerAlnum = l := by
  induction l with
  | nil => rfl
  | cons c rest ih =>
    have hc : isLowerAlnum c = true := h c (List.mem_cons_self c rest)
    have hrest : ∀ d ∈ rest, isLowerAlnum d = true := fun d hd =>
      h d (List.mem_cons_of_mem c hd)
    simp [toLowerChar_of_isLowerAlnum c hc, hc, List.filter_cons, ih hrest]

/-! ### C10 — normalizer idempotence -/

/-- C10: for every string `s`, `normalize (normalize s) = normalize s`: the
normalizer (lower-case, then drop every character outside `[a-z0-9]`) is
idempotent. -/
theorem normalize_idempotent (s : String) :
    normalize (normalize s) = normalize s := by
  unfold normalize
  congr 1
  exact filter_map_toLower_of_kept _ (fun c hc => (List.mem_filter.mp hc).2)

/-! ### C7 — per-box unit inference -/

/-- C7: the overlay geometry treats a box as normalized exactly when
`x ≤ 1`, `y ≤ 1`, the width is absent or `≤ 1`, and the height is absent or
`≤ 1`; the predicate takes a single box, so the decision is made
independently per box. -/
theorem isNormalizedBBox_iff (b : FieldBBox) :
    isNormalizedBBox b = true ↔
      (b.x ≤ 1 ∧ b.y ≤ 1 ∧
        (b.width = none ∨ ∃ w, b.width = some w ∧ w ≤ 1) ∧
        (b.height = none ∨ ∃ h, b.height = some h ∧ h ≤ 1)) := by
  rcases b with ⟨page, x, y, w, h⟩
  rcases w with _ | w <;> rcases h with _ | h <;>
    simp [isNormalizedBBox, Option.getD]

/-! ### C8 — overlay page selection -/

/-- C8: for every page number and every document with at least one page, the
code's page selection (round, decrement when out of range above, clamp)
computes the same final index as the spec's rule (decrement only when the
zero-based index is out of range but the decremented one is in range, then
clamp into `[0, pageCount-1]`). -/
theorem overlayPageIndex_matches_spec (page : ℚ) (pageCount : Nat)
    (h : 1 ≤ pageCount) :
    overlayPageIndex page pageCount = specPageIndex page pageCount := by
  unfold overlayPageIndex specPageIndex
  have h1 : (1 : Int) ≤ (pageCount : Int) := by exact_mod_cast h
  set s := roundJs page with hs
  simp only [Int.max_def, Int.min_def]
  split_ifs <;> omega

/-- Witness for C8: `page = 1` on a one-page document resolves to index 0,
in the code and in the spec rule alike. -/
theorem overlayPageIndex_matches_spec_witness :
    1 ≤ 1 ∧ overlayPageIndex 1 1 = specPageIndex 1 1 ∧
      overlayPageIndex 1 1 = 0 :=
  ⟨le_refl 1, overlayPageIndex_matches_spec 1 1 (le_refl 1), by
    norm_num [overlayPageIndex, roundJs]⟩

/-! ### C5 — validator resilience to malformed JSON -/

/-- C5: for every raw payload, when the runtime JSON parse of the payload
(after optional code-fence extraction) fails, the validator returns exactly
an empty field list and an absent title.  The embedding is a total function,
so no error is thrown or propagated. -/
theorem parseResponse_parse_failure (jsonParse : String → Option Json)
    (raw : String) (h : jsonParse (extractFencedJson raw) = none) :
    parseResponse jsonParse raw = ⟨[], none⟩ := by
  unfold parseResponse
  simp only [h]

/-- Witness for C5: the raw input `"not json"` under a parser that fails on
it yields an empty field list and an absent title. -/
theorem parseResponse_parse_failure_witness :
    (fun _ : String => (none : Option Json)) (extractFencedJson "not json") =
        none ∧
      parseResponse (fun _ => none) "not json" = ⟨[], none⟩ :=
  ⟨rfl, parseResponse_parse_failure (fun _ => none) "not json" rfl⟩

/-! ### C3 — fill resolver matches the spec's four-tier algorithm -/

/-- Modelled from the spec (§4.3, tier 1): exact string equality, first
match in the available order. -/
def specTierExact (requested : String) (available : List String) :
    Option String :=
  available.find? (fun name => name == requested)

/-- Modelled from the spec (§4.3, tier 2): case-insensitive equality. -/
def specTierCaseless (requested : String) (available : List String) :
    Option String :=
  available.find? (fun name => toLowerStr name == toLowerStr requested)

/-- Modelled from the spec (§4.3, tier 3): normalized-form equality. -/
def specTierNormalized (requested : String) (available : List String) :
    Option String :=
  available.find? (fun name => normalize name == normalize requested)

/-- Modelled from the spec (§4.3, tier 4): normalized containment — a unique
qualifying candidate is accepted; several qualifying candidates are
tie-broken by the first whose classified kind is in a non-empty
preferred-kind list, and otherwise the tier yields no match. -/
def specTierContainment (requested : String) (available : List String)
    (kindMap : String → PdfFieldKind) (preferredKinds : List PdfFieldKind) :
    Option String :=
  let qualifying := available.filter (fun name =>
    includesChars (normalize requested).data (normalize name).data)
  match qualifying with
  | [] => none
  | [unique] => some unique
  | _ :: _ :: _ =>
    if preferredKinds = [] then none
    else qualifying.find? (fun name => preferredKinds.contains (kindMap name))

/-- Modelled from the spec (§4.3): the four tiers strictly ordered, first
success wins, otherwise no match. -/
def specResolveFieldName (requested : String) (available : List String)
    (kindMap : String → PdfFieldKind) (preferredKinds : List PdfFieldKind) :
    Option String :=
  match specTierExact requested available with
  | some m => some m
  | none =>
    match specTierCaseless requested available with
    | some m => some m
    | none =>
      match specTierNormalized requested available with
      | some m => some m
      | none => specTierContainment requested available kindMap preferredKinds

/-- C3: for every requested name, available-name list, kind map and
preferred-kind list, the fill route's resolver returns exactly the result of
the spec's four-tier reference algorithm — in particular ambiguous
containment with an empty preferred-kind list yields no match. -/
theorem resolveFieldName_matches_spec (requested : String)
    (available : List String) (kindMap : String → PdfFieldKind)
    (preferredKinds : List PdfFieldKind) :
    resolveFieldName requested available kindMap preferredKinds =
      specResolveFieldName requested available kindMap preferredKinds := by
  unfold resolveFieldName specResolveFieldName specTierExact specTierCaseless
    specTierNormalized specTierContainment
  cases h1 : available.find? (fun name => name == requested) <;>
    simp only [h1]
  cases h2 : available.find?
      (fun name => toLowerStr name == toLowerStr requested) <;>
    simp only [h2]
  cases h3 : available.find?
      (fun name => normalize name == normalize requested) <;>
    simp only [h3]
  set L := available.filter (fun name =>
    includesChars (normalize requested).data (normalize name).data) with hL
  rcases L with _ | ⟨a, _ | ⟨b, t⟩⟩
  · simp
  · simp
  · by_cases hp : preferredKinds = []
    · simp [hp, List.isEmpty_iff]
    · have hne : ¬ (a :: b :: t).length = 1 := by simp
      simp only [hne, if_false, hp, if_neg hp]
      rw [if_pos ⟨by simp, by simp [List.isEmpty_iff, hp]⟩]
      cases hf : (a :: b :: t).find?
          (fun name => preferredKinds.contains (kindMap name)) <;>
        simp [hf]

/-! ### C4 — detect resolver vs fill resolver -/

/-- First satisfying element as the head of the filtered list. -/
lemma find?_eq_filter_head (p : α → Bool) (l : List α) :
    l.find? p = (l.filter p).head? := by
  induction l with
  | nil => rfl
  | cons a rest ih =>
    by_cases h : p a
    · rw [List.find?_cons_of_pos _ h, List.filter_cons_of_pos h]
      rfl
    · rw [List.find?_cons_of_neg _ h, List.filter_cons_of_neg h]
      exact ih

/-- C4, corrected: the detect route's resolver and the fill route's resolver
with an empty preferred-kind list agree whenever at most one available name's
normalized form contains the requested name's normalized form (so the
containment tier is unambiguous); `resolvers_disagree_counterexample` shows
they differ under ambiguous containment. -/
theorem resolvers_agree_of_unambiguous (requested : String)
    (available : List String) (kindMap : String → PdfFieldKind)
    (h : (available.filter (fun name =>
        includesChars (normalize requested).data (normalize name).data)).length
      ≤ 1) :
    resolveFieldNameDetect requested available =
      resolveFieldName requested available kindMap [] := by
  unfold resolveFieldNameDetect resolveFieldName
  cases h1 : available.find? (fun name => name == requested) <;>
    simp only [h1]
  cases h2 : available.find?
      (fun name => toLowerStr name == toLowerStr requested) <;>
    simp only [h2]
  cases h3 : available.find?
      (fun name => normalize name == normalize requested) <;>
    simp only [h3]
  rw [find?_eq_filter_head]
  set L := available.filter (fun name =>
    includesChars (normalize requested).data (normalize name).data) with hL
  rcases L with _ | ⟨a, _ | ⟨b, t⟩⟩
  · simp
  · simp
  · simp at h

/-- Counterexample for C4 as stated: requested `"phone"` against the
available names `["phone_home", "phone_work"]` — the detect resolver accepts
the first containing candidate while the fill resolver (empty preferred-kind
list) reports no match, so the two resolvers do not always compute the same
result. -/
theorem resolvers_disagree_counterexample :
    resolveFieldNameDetect "phone" ["phone_home", "phone_work"] =
        some "phone_home" ∧
      resolveFieldName "phone" ["phone_home", "phone_work"]
        (fun _ => PdfFieldKind.unknown) [] = none := by
  constructor <;> rfl

/-- Witness for C4's corrected statement: `"full name"` against
`["Full_Name", "Email"]` has unambiguous containment, and both resolvers
return the same result. -/
theorem resolvers_agree_of_unambiguous_witness :
    (["Full_Name", "Email"].filter (fun name =>
        includesChars (normalize "full name").data (normalize name).data)).length
        ≤ 1 ∧
      resolveFieldNameDetect "full name" ["Full_Name", "Email"] =
        resolveFieldName "full name" ["Full_Name", "Email"]
          (fun _ => PdfFieldKind.unknown) [] :=
  ⟨by decide,
    resolvers_agree_of_unambiguous "full name" ["Full_Name", "Email"]
      (fun _ => PdfFieldKind.unknown) (by decide)⟩

/-! ### C6 — the validator does not cap the proposal count -/

/-- A minimal well-formed raw field entry. -/
def sampleEntry : Json :=
  .obj [("name", .str "f"), ("label", .str "l")]

/-- The proposal `sampleEntry` is coerced to. -/
def sampleField : DetectedField :=
  ⟨"f", "l", .text, none, none, none⟩

/-- Coercing the sample entry succeeds with the sample proposal. -/
lemma shapeItem_sampleEntry : shapeItem sampleEntry = .ok sampleField := by
  rfl

/-- Coercing `n` copies of the sample entry yields `n` sample proposals. -/
lemma shapeItems_replicate (n : Nat) :
    shapeItems (List.replicate n sampleEntry) =
      .ok (List.replicate n sampleField) := by
  induction n with
  | zero => rfl
  | succ n ih =>
    rw [List.replicate_succ, List.replicate_succ]
    show (do
      let f ← shapeItem sampleEntry
      let fs ← shapeItems (List.replicate n sampleEntry)
      pure (f :: fs)) = _
    rw [shapeItem_sampleEntry, ih]
    rfl

/-- Filtering keeps every copy of an element the predicate accepts. -/
lemma filter_replicate_of_pos (p : α → Bool) (a : α) (h : p a = true)
    (n : Nat) : (List.replicate n a).filter p = List.replicate n a := by
  induction n with
  | zero => rfl
  | succ n ih => rw [List.replicate_succ, List.filter_cons_of_pos h, ih]

/-- The validator on a payload of `n` well-formed entries retains all `n`. -/
lemma parseResponse_replicate_len (n : Nat) (raw : String) :
    (parseResponse (fun _ => some (Json.arr (List.replicate n sampleEntry)))
        raw).fields.length = n := by
  unfold parseResponse
  simp [jsGet, List.find?, shapeItems_replicate n,
    filter_replicate_of_pos (fun f => f.name != "" && f.label != "")
      sampleField (by rfl) n]

/-- C6, corrected: the validator enforces no cap — a payload of `n`
well-formed field entries yields exactly `n` retained proposals, for every
`n` (the 30-item limit exists only in the recognizer instructions). -/
theorem parseResponse_no_cap (n : Nat) (raw : String) :
    (parseResponse (fun _ => some (Json.arr (List.replicate n sampleEntry)))
        raw).fields.length = n :=
  parseResponse_replicate_len n raw

/-- Counterexample for C6 as stated: a well-formed response containing 50
field entries yields 50 retained proposals, more than 30. -/
theorem parseResponse_cap_counterexample :
    ¬ ((parseResponse
          (fun _ => some (Json.arr (List.replicate 50 sampleEntry)))
          "x").fields.length ≤ 30) := by
  have h := parseResponse_replicate_len 50 "x"
  omega

/-! ### C9 — overlay rectangle clamping -/

/-- Counterexample for C9 as stated: the normalized box
`{x:1, y:0, width:1, height:0.04}` on a 100×100 page scales to `x = 100` and
`width = 100`, so `x + width = 200 > pageWidth` — the scaled `x` is not
clamped into `[0, pageWidth - width]` and the rectangle exceeds the page. -/
theorem overlayGeom_offpage_counterexample :
    ¬ ((overlayGeom ⟨0, 1, 0, some 1, some (1 / 25)⟩ 100 100).x +
          (overlayGeom ⟨0, 1, 0, some 1, some (1 / 25)⟩ 100 100).width ≤
        100) := by
  norm_num [overlayGeom, isNormalizedBBox]

/-- The scaled `x` in the normalized branch. -/
lemma overlayGeom_x_norm (b : FieldBBox) (pw ph : ℚ)
    (hn : isNormalizedBBox b = true) :
    (overlayGeom b pw ph).x = max 0 (min 1 b.x) * pw := by
  simp [overlayGeom, hn]

/-- The vertical input in the normalized branch. -/
lemma overlayGeom_y_norm (b : FieldBBox) (pw ph : ℚ)
    (hn : isNormalizedBBox b = true) :
    (overlayGeom b pw ph).yFromTop = max 0 (min 1 b.y) * ph := by
  simp [overlayGeom, hn]

/-- The width in the absolute branch. -/
lemma overlayGeom_width_abs (b : FieldBBox) (pw ph : ℚ)
    (hn : isNormalizedBBox b = false) :
    (overlayGeom b pw ph).width = b.width.getD (pw * (2 / 5)) := by
  simp [overlayGeom, hn]

/-- The clamped `x` in the absolute branch. -/
lemma overlayGeom_x_abs (b : FieldBBox) (pw ph : ℚ)
    (hn : isNormalizedBBox b = false) :
    (overlayGeom b pw ph).x =
      max 0 (min (pw - b.width.getD (pw * (2 / 5))) b.x) := by
  simp [overlayGeom, hn]

/-- The clamped vertical input in the absolute branch. -/
lemma overlayGeom_y_abs (b : FieldBBox) (pw ph : ℚ)
    (hn : isNormalizedBBox b = false) :
    (overlayGeom b pw ph).yFromTop = max 0 (min ph b.y) := by
  simp [overlayGeom, hn]

/-- C9, corrected: in the absolute branch the scaled `x` is clamped into
`[0, max 0 (pageWidth - width)]`, which keeps `x + width ≤ pageWidth`
whenever `width ≤ pageWidth`; in the normalized branch only the coordinate
ratio is clamped into `[0,1]`, so `x` itself stays within `[0, pageWidth]`
but `x + width` may exceed the page; the vertical input is clamped into
`[0, pageHeight]` (not `[0, pageHeight - height]`). -/
theorem overlayGeom_clamp (b : FieldBBox) (pageWidth pageHeight : ℚ)
    (hw : 0 ≤ pageWidth) (hh : 0 ≤ pageHeight) :
    0 ≤ (overlayGeom b pageWidth pageHeight).x ∧
      (isNormalizedBBox b = true →
        (overlayGeom b pageWidth pageHeight).x ≤ pageWidth) ∧
      (isNormalizedBBox b = false →
        (overlayGeom b pageWidth pageHeight).x ≤
            max 0 (pageWidth - (overlayGeom b pageWidth pageHeight).width) ∧
          ((overlayGeom b pageWidth pageHeight).width ≤ pageWidth →
            (overlayGeom b pageWidth pageHeight).x +
                (overlayGeom b pageWidth pageHeight).width ≤ pageWidth)) ∧
      0 ≤ (overlayGeom b pageWidth pageHeight).yFromTop ∧
      (overlayGeom b pageWidth pageHeight).yFromTop ≤ pageHeight := by
  cases hn : isNormalizedBBox b
  · rw [overlayGeom_x_abs b _ _ hn, overlayGeom_y_abs b _ _ hn,
      overlayGeom_width_abs b _ _ hn]
    set W := b.width.getD (pageWidth * (2 / 5)) with hW
    refine ⟨le_max_left 0 _, by simp, fun _ => ⟨?_, fun hwle => ?_⟩,
      le_max_left 0 _, max_le hh (min_le_left _ _)⟩
    · exact max_le_max (le_refl 0) (min_le_left _ _)
    · have h1 : max 0 (min (pageWidth - W) b.x) ≤ pageWidth - W := by
        have : (0 : ℚ) ≤ pageWidth - W := by linarith
        exact max_le this (min_le_left _ _)
      linarith
  · rw [overlayGeom_x_norm b _ _ hn, overlayGeom_y_norm b _ _ hn]
    have hx1 : max 0 (min 1 b.x) ≤ 1 := max_le zero_le_one (min_le_left _ _)
    have hy1 : max 0 (min 1 b.y) ≤ 1 := max_le zero_le_one (min_le_left _ _)
    exact ⟨mul_nonneg (le_max_left 0 _) hw,
      fun _ => mul_le_of_le_one_left hw hx1,
      fun hfalse => by simp [hn] at hfalse,
      mul_nonneg (le_max_left 0 _) hh,
      mul_le_of_le_one_left hh hy1⟩

/-- Witness for C9's corrected statement: the spec's absolute example box
`{x:120, y:300, width:200, height:20}` on a 612×792 page. -/
theorem overlayGeom_clamp_witness :
    (0 : ℚ) ≤ 612 ∧ (0 : ℚ) ≤ 792 ∧
      (0 ≤ (overlayGeom ⟨0, 120, 300, some 200, some 20⟩ 612 792).x ∧
        (isNormalizedBBox ⟨0, 120, 300, some 200, some 20⟩ = true →
          (overlayGeom ⟨0, 120, 300, some 200, some 20⟩ 612 792).x ≤ 612) ∧
        (isNormalizedBBox ⟨0, 120, 300, some 200, some 20⟩ = false →
          (overlayGeom ⟨0, 120, 300, some 200, some 20⟩ 612 792).x ≤
              max 0 (612 -
                (overlayGeom ⟨0, 120, 300, some 200, some 20⟩ 612 792).width) ∧
            ((overlayGeom ⟨0, 120, 300, some 200, some 20⟩ 612 792).width ≤
                612 →
              (overlayGeom ⟨0, 120, 300, some 200, some 20⟩ 612 792).x +
                  (overlayGeom ⟨0, 120, 300, some 200, some 20⟩ 612 792).width ≤
                612)) ∧
        0 ≤ (overlayGeom ⟨0, 120, 300, some 200, some 20⟩ 612 792).yFromTop ∧
        (overlayGeom ⟨0, 120, 300, some 200, some 20⟩ 612 792).yFromTop ≤
          792) :=
  ⟨by norm_num, by norm_num,
    overlayGeom_clamp ⟨0, 120, 300, some 200, some 20⟩ 612 792
      (by norm_num) (by norm_num)⟩

/-! ### C1 — one-to-one matching in the fill loop -/

/-- A name returned by the fill resolver is one of the available names. -/
lemma resolveFieldName_mem (requested : String) (available : List String)
    (kindMap : String → PdfFieldKind) (preferredKinds : List PdfFieldKind)
    (t : String)
    (h : resolveFieldName requested available kindMap preferredKinds = some t) :
    t ∈ available := by
  unfold resolveFieldName at h
  cases h1 : available.find? (fun name => name == requested) <;>
      simp only [h1] at h
  case some m =>
    cases h
    exact List.mem_of_find?_eq_some h1
  cases h2 : available.find?
      (fun name => toLowerStr name == toLowerStr requested) <;>
      simp only [h2] at h
  case some m =>
    cases h
    exact List.mem_of_find?_eq_some h2
  cases h3 : available.find?
      (fun name => normalize name == normalize requested) <;>
      simp only [h3] at h
  case some m =>
    cases h
    exact List.mem_of_find?_eq_some h3
  split at h
  · have ht : t ∈ available.filter (fun name =>
        includesChars (normalize requested).data (normalize name).data) := by
      rcases List.getElem?_eq_some.mp h with ⟨hlt, hEq⟩
      exact hEq ▸ List.getElem_mem hlt
    exact (List.mem_filter.mp ht).1
  · split at h
    · cases h4 : (available.filter (fun name =>
          includesChars (normalize requested).data (normalize name).data)).find?
            (fun name => preferredKinds.contains (kindMap name)) <;>
        simp only [h4] at h
      case some m =>
        cases h
        exact (List.mem_filter.mp (List.mem_of_find?_eq_some h4)).1
      exact Option.noConfusion h
    · exact absurd h (by simp)

/-- A resolved or fallback target of one fill-loop iteration is never a name
already in the used set, and a filled iteration pushes exactly its target
onto the used set; every other iteration leaves the used set unchanged and
fills nothing. -/
lemma fillStep_shape (avail : List String) (kinds : String → PdfFieldKind)
    (values : String → Option JsValue) (used : List String) (f : FillField) :
    (∃ t, t ∈ avail ∧ t ∉ used ∧
        fillStep avail kinds values used f = (t :: used, .filled t)) ∨
      ((fillStep avail kinds values used f).1 = used ∧
        ∀ t, (fillStep avail kinds values used f).2 ≠ .filled t) := by
  unfold fillStep
  by_cases hname : f.name = ""
  · rw [if_pos hname]
    right
    exact ⟨by simp, fun t => by simp⟩
  · rw [if_neg hname]
    cases hv : values f.name with
    | none =>
      simp only [hv]
      right
      exact ⟨by simp, fun t => by simp⟩
    | some v =>
      simp only [hv]
      cases hr : resolveFieldName f.name
          (avail.filter (fun n => !(used.contains n))) kinds
          (desiredKindsOf f.type) with
      | some t =>
        simp only [hr]
        left
        have hmem := resolveFieldName_mem _ _ _ _ _ hr
        refine ⟨t, (List.mem_filter.mp hmem).1, ?_, rfl⟩
        have hnu := (List.mem_filter.mp hmem).2
        simp only [Bool.not_eq_eq_eq_not, Bool.not_true] at hnu
        simp at hnu
        exact hnu
      | none =>
        simp only [hr]
        by_cases hd : (desiredKindsOf f.type).isEmpty = true
        · rw [if_neg (by simp [hd])]
          right
          refine ⟨by simp, fun t => ?_⟩
          by_cases hb : f.bbox.isSome <;> simp [hb]
        · rw [if_pos hd]
          cases hf : avail.find? (fun n =>
              !(used.contains n) &&
                (desiredKindsOf f.type).contains (kinds n)) with
          | some t =>
            simp only [hf]
            left
            refine ⟨t, List.mem_of_find?_eq_some hf, ?_, rfl⟩
            have hp := List.find?_some hf
            have hnu := ((Bool.and_eq_true _ _).mp hp).1
            simp only [Bool.not_eq_eq_eq_not, Bool.not_true] at hnu
            simp at hnu
            exact hnu
          | none =>
            simp only [hf]
            right
            refine ⟨by simp, fun t => ?_⟩
            by_cases hb : f.bbox.isSome <;> simp [hb]

/-- Filling an outcome list's targets: a filled head contributes its
target. -/
lemma filledTargets_cons_filled (t : String) (os : List FillOutcome) :
    filledTargets (.filled t :: os) = t :: filledTargets os := by
  simp [filledTargets, List.filterMap_cons]

/-- A head that filled nothing contributes no target. -/
lemma filledTargets_cons_not_filled (o : FillOutcome) (os : List FillOutcome)
    (h : ∀ t, o ≠ .filled t) :
    filledTargets (o :: os) = filledTargets os := by
  cases o with
  | filled t => exact absurd rfl (h t)
  | overlay => simp [filledTargets, List.filterMap_cons]
  | warnedNoMatch => simp [filledTargets, List.filterMap_cons]
  | skippedNoValue => simp [filledTargets, List.filterMap_cons]
  | skippedNoName => simp [filledTargets, List.filterMap_cons]

/-- Induction core: from any used set, the loop fills pairwise-distinct
targets, none of which was already used. -/
lemma runFill_filled_invariant (avail : List String)
    (kinds : String → PdfFieldKind) (values : String → Option JsValue) :
    ∀ (fields : List FillField) (used : List String),
      (filledTargets (runFill avail kinds values used fields).2).Nodup ∧
        ∀ t ∈ filledTargets (runFill avail kinds values used fields).2,
          t ∉ used := by
  intro fields
  induction fields with
  | nil =>
    intro used
    simp [runFill, filledTargets]
  | cons f rest ih =>
    intro used
    rcases fillStep_shape avail kinds values used f with
      ⟨t, _, htu, heq⟩ | ⟨h1, h2⟩
    · have hred : runFill avail kinds values used (f :: rest) =
          ((runFill avail kinds values (t :: used) rest).1,
            .filled t :: (runFill avail kinds values (t :: used) rest).2) := by
        simp [runFill, heq]
      obtain ⟨hnd, hnotin⟩ := ih (t :: used)
      rw [hred, filledTargets_cons_filled]
      constructor
      · refine List.Nodup.cons ?_ hnd
        intro hmem
        exact hnotin t hmem (List.mem_cons_self t used)
      · intro u hu
        rcases List.mem_cons.mp hu with hu1 | hu2
        · exact hu1 ▸ htu
        · intro huused
          exact hnotin u hu2 (List.mem_cons_of_mem t huused)
    · have hred : runFill avail kinds values used (f :: rest) =
          ((runFill avail kinds values used rest).1,
            (fillStep avail kinds values used f).2 ::
              (runFill avail kinds values used rest).2) := by
        simp only [runFill]
        rw [h1]
      obtain ⟨hnd, hnotin⟩ := ih used
      rw [hred, filledTargets_cons_not_filled _ _ h2]
      exact ⟨hnd, hnotin⟩

/-- C1, corrected: a proposal reserves a structured-field name only when it
is actually filled — its resolution (or kind fallback) succeeded and a value
was supplied — and then no later proposal in the request can resolve to or
fill that name; consequently the names filled across one fill request are
pairwise distinct.  A successful resolution alone, with no supplied value,
reserves nothing (see `fill_reservation_counterexample`). -/
theorem fill_one_to_one (avail : List String)
    (kinds : String → PdfFieldKind) (values : String → Option JsValue)
    (fields : List FillField) :
    (filledTargets (runFill avail kinds values [] fields).2).Nodup :=
  (runFill_filled_invariant avail kinds values fields []).1

/-- Counterexample for C1 as stated: with the single structured field `"a"`,
the proposal list `["a", "A"]` and a value supplied only for `"A"`, the first
proposal's name resolution succeeds (tier 1), yet the field is not reserved —
the loop skips it for lack of a value and the later proposal `"A"` resolves
to (tier 2) and fills the same field `"a"`. -/
theorem fill_reservation_counterexample :
    resolveFieldName "a" ["a"] (fun _ => PdfFieldKind.unknown) [] =
        some "a" ∧
      resolveFieldName "A" ["a"] (fun _ => PdfFieldKind.unknown) [] =
        some "a" ∧
      runFill ["a"] (fun _ => PdfFieldKind.unknown)
          (fun n => if n = "A" then some (JsValue.str "x") else none) []
          [⟨"a", none, none⟩, ⟨"A", none, none⟩] =
        (["a"], [.skippedNoValue, .filled "a"]) := by
  refine ⟨rfl, rfl, ?_⟩
  rfl

/-! ### C2 — both routes reject native forms; past the check nothing can
match -/

/-- Enrichment against an empty field-name inventory changes nothing (the
resolver finds no match, so the probing oracles are never consulted). -/
lemma enrichField_nil (kindOf : String → PdfFieldKind)
    (optsOf : String → Option (List String)) (f : DetectedField) :
    enrichField [] kindOf optsOf f = f :=
  rfl

/-- With an empty available-name list the fill loop never fills. -/
lemma runFill_nil_no_fill (kinds : String → PdfFieldKind)
    (values : String → Option JsValue) :
    ∀ (fields : List FillField) (used : List String),
      ∀ o ∈ (runFill [] kinds values used fields).2, ∀ t, o ≠ .filled t := by
  intro fields
  induction fields with
  | nil =>
    intro used o ho
    simp [runFill] at ho
  | cons f rest ih =>
    intro used o ho
    rcases fillStep_shape [] kinds values used f with
      ⟨t, htavail, _, _⟩ | ⟨h1, h2⟩
    · exact absurd htavail (List.not_mem_nil t)
    · have hred : runFill [] kinds values used (f :: rest) =
          ((runFill [] kinds values used rest).1,
            (fillStep [] kinds values used f).2 ::
              (runFill [] kinds values used rest).2) := by
        simp only [runFill]
        rw [h1]
      rw [hred] at ho
      rcases List.mem_cons.mp ho with rfl | hmem
      · exact h2
      · exact ih used o hmem

/-- C2: both routes reject a document whose structured-field inventory is
non-empty; in a request that passes the check the inventory is empty, so
name resolution returns no match for every proposal, the detect-route
enrichment leaves the validated proposals untouched (the value applier and
the kind/options probing are never reached), and every proposal's outcome in
the fill loop is an overlay draw, a no-match warning, or a skip — never a
fill. -/
theorem guard_empty_inventory (inventory : List String)
    (kinds : String → PdfFieldKind) (values : List (String × JsValue))
    (fields : Option (List FillField)) (kindOf : String → PdfFieldKind)
    (optsOf : String → Option (List String)) (parsed : ParsedDetection) :
    (inventory ≠ [] →
      fillRoute inventory kinds values fields = .rejected ∧
        detectRoute inventory kindOf optsOf parsed = .rejected) ∧
    (inventory = [] →
      (∀ requested preferredKinds,
          resolveFieldName requested inventory kinds preferredKinds = none) ∧
        detectRoute inventory kindOf optsOf parsed =
          .completed parsed.fields parsed.title ∧
        ∃ outcomes,
          fillRoute inventory kinds values fields = .completed outcomes ∧
            ∀ o ∈ outcomes,
              o = .overlay ∨ o = .warnedNoMatch ∨ o = .skippedNoValue ∨
                o = .skippedNoName) := by
  constructor
  · intro hne
    have hlen : inventory.length > 0 := List.length_pos.mpr hne
    constructor
    · unfold fillRoute
      rw [if_pos hlen]
    · unfold detectRoute
      rw [if_pos hlen]
  · rintro rfl
    refine ⟨fun requested preferredKinds => rfl, ?_, ?_⟩
    · unfold detectRoute
      rw [if_neg (by simp)]
      rw [show enrichField [] kindOf optsOf = id from
        funext fun f => enrichField_nil kindOf optsOf f]
      rw [List.map_id]
    · unfold fillRoute
      rw [if_neg (by simp)]
      refine ⟨_, rfl, ?_⟩
      intro o ho
      have h := runFill_nil_no_fill kinds (lookupVal values) _ [] o ho
      cases o with
      | filled t => exact absurd rfl (h t)
      | overlay => exact Or.inl rfl
      | warnedNoMatch => exact Or.inr (Or.inl rfl)
      | skippedNoValue => exact Or.inr (Or.inr (Or.inl rfl))
      | skippedNoName => exact Or.inr (Or.inr (Or.inr rfl))

/-- Witness for C2: a one-field inventory is rejected by the fill route, and
on an empty inventory the detect route returns the parsed proposals
untouched while resolution finds nothing. -/
theorem guard_empty_inventory_witness :
    fillRoute ["field1"] (fun _ => PdfFieldKind.unknown) [] none =
        .rejected ∧
      detectRoute [] (fun _ => PdfFieldKind.unknown) (fun _ => none)
          ⟨[], none⟩ =
        .completed [] none ∧
      resolveFieldName "name" [] (fun _ => PdfFieldKind.unknown) [] = none :=
  ⟨((guard_empty_inventory ["field1"] (fun _ => .unknown) [] none
        (fun _ => .unknown) (fun _ => none) ⟨[], none⟩).1 (by simp)).1,
    ((guard_empty_inventory [] (fun _ => .unknown) [] none
        (fun _ => .unknown) (fun _ => none) ⟨[], none⟩).2 rfl).2.1,
    ((guard_empty_inventory [] (fun _ => .unknown) [] none
        (fun _ => .unknown) (fun _ => none) ⟨[], none⟩).2 rfl).1 "name" []⟩

end FillForm
